import Mathlib

/-!
Verification of the benchmark-jpegxl run-orchestration engine.

Shallow embedding of the Rust sources under src/benchmark-jpegxl/src/:
file names and command outputs are lists of characters, Rust f32/f64
values are modelled as exact rationals, u32/u64/usize as naturals with
explicit range checks where the source can fail on overflow, and every
Rust panic (assert!, unwrap on None/Err, out-of-range indexing) is the
value none of an Option-returning function.
-/

namespace JXLBench

/-! Character-list utilities modelling Rust string primitives. -/

/-- Splits a character list at every character satisfying the predicate,
keeping empty chunks, mirroring the chunk structure of Rust's str::split. -/
def splitOnPred (p : Char → Bool) : List Char → List (List Char)
  | [] => [[]]
  | c :: rest =>
    match splitOnPred p rest with
    | [] => [[]]
    | h :: t => if p c then [] :: h :: t else (c :: h) :: t

/-- Rust str::split with a one-character pattern. -/
def splitOnChar (sep : Char) (s : List Char) : List (List Char) :=
  splitOnPred (fun c => c == sep) s

/-- Rust slice join on string chunks with a one-character separator. -/
def joinSep (sep : Char) : List (List Char) → List Char
  | [] => []
  | [x] => x
  | x :: y :: t => x ++ sep :: joinSep sep (y :: t)

/-- ASCII whitespace test modelling char::is_whitespace on tool output. -/
def isWS (c : Char) : Bool :=
  c == ' ' || c == '\t' || c == '\r' || c == '\n'

/-- Rust str::split_whitespace: split at whitespace and drop empty chunks. -/
def split_whitespace (s : List Char) : List (List Char) :=
  (splitOnPred isWS s).filter (fun w => w ≠ [])

/-- Strips one trailing carriage return, as Rust str::lines does on each
newline-terminated chunk. -/
def stripCR (l : List Char) : List Char :=
  if l.getLastD ' ' = '\r' then l.dropLast else l

/-- Rust str::lines: chunks between newline characters, a final line ending
optional, carriage returns stripped before each newline. -/
def rustLines (s : List Char) : List (List Char) :=
  if s = [] then []
  else
    let chunks := splitOnChar '\n' s
    if chunks.getLastD [] = [] then chunks.dropLast.map stripCR
    else chunks.dropLast.map stripCR ++ [chunks.getLastD []]

/-- Rust Path::file_name for ordinary file paths: the part after the last
path separator (modelled for paths without a trailing separator). -/
def rustFileName (path : List Char) : List Char :=
  (splitOnChar '/' path).getLastD []

/-- Rust Path::extension: the part of the file name after its last dot;
none when there is no dot, or when the only dot starts a hidden-file name. -/
def rustExtension (path : List Char) : Option (List Char) :=
  match rustFileName path with
  | [] => none
  | c :: rest =>
    if rest.contains '.' then some ((splitOnChar '.' (c :: rest)).getLastD [])
    else none

/-- Value of a digit string read left to right in base ten. -/
def digitsToNat (s : List Char) : Nat :=
  s.foldl (fun acc c => 10 * acc + (c.toNat - '0'.toNat)) 0

/-- Rust usize::from_str: an optional leading plus sign, then at least one
ASCII digit, rejecting values outside the 64-bit range. -/
def parse_usize (s : List Char) : Option Nat :=
  let digits := match s with
    | '+' :: rest => rest
    | _ => s
  if digits ≠ [] ∧ digits.all Char.isDigit ∧ digitsToNat digits < 2 ^ 64 then
    some (digitsToNat digits)
  else none

/-- Rust u32::from_str: an optional leading plus sign, then at least one
ASCII digit, rejecting values outside the 32-bit range. -/
def parse_u32 (s : List Char) : Option Nat :=
  let digits := match s with
    | '+' :: rest => rest
    | _ => s
  if digits ≠ [] ∧ digits.all Char.isDigit ∧ digitsToNat digits < 2 ^ 32 then
    some (digitsToNat digits)
  else none

/-- Rust f64::from_str modelled on plain decimal numerals: an optional sign,
then digits with at most one decimal point and a digit on at least one side
of it. Exponent, infinity and NaN forms are outside the model; the parsed
value is kept exact as a rational. -/
def parse_f64 (s : List Char) : Option ℚ :=
  let signBody : ℚ × List Char := match s with
    | '+' :: rest => (1, rest)
    | '-' :: rest => (-1, rest)
    | _ => (1, s)
  match splitOnChar '.' signBody.2 with
  | [ip] =>
    if ip ≠ [] ∧ ip.all Char.isDigit then
      some (signBody.1 * (digitsToNat ip : ℚ))
    else none
  | [ip, fp] =>
    if (ip ≠ [] ∨ fp ≠ []) ∧ ip.all Char.isDigit ∧ fp.all Char.isDigit then
      some (signBody.1 * ((digitsToNat ip : ℚ) + (digitsToNat fp : ℚ) / (10 : ℚ) ^ fp.length))
    else none
  | _ => none

/-- Rust f32::from_str, modelled the same way as the f64 parser (the
benchmark only round-trips grid values that both widths represent exactly). -/
def parse_f32 (s : List Char) : Option ℚ :=
  parse_f64 s

/-! Image formats: src/benchmark-jpegxl/src/image_reader.rs. -/

/-- Supported image formats for image reading (enum ImageFormat). -/
inductive ImageFormat where
  | JpegXl
  | Png
  | Jpeg
  | Gif
  | WebP
  | Pnm
  | Tiff
  | Tga
  | Dds
  | Bmp
  | Ico
  | Hdr
  | OpenExr
  | Farbfeld
  | Avif
  | Qoi
  | Unsupported
deriving DecidableEq

/-- Extension-to-format table shared by ImageFormat::from_file_name's match
and the From String for ImageFormat impl (their arms are identical). -/
def ext_to_format (ext : List Char) : ImageFormat :=
  if ext = "jxl".data then ImageFormat.JpegXl
  else if ext = "png".data then ImageFormat.Png
  else if ext = "jpeg".data then ImageFormat.Jpeg
  else if ext = "gif".data then ImageFormat.Gif
  else if ext = "webp".data then ImageFormat.WebP
  else if ext = "ppm".data then ImageFormat.Pnm
  else if ext = "tiff".data then ImageFormat.Tiff
  else if ext = "tga".data then ImageFormat.Tga
  else if ext = "dds".data then ImageFormat.Dds
  else if ext = "bmp".data then ImageFormat.Bmp
  else if ext = "ico".data then ImageFormat.Ico
  else if ext = "hdr".data then ImageFormat.Hdr
  else if ext = "exr".data then ImageFormat.OpenExr
  else if ext = "ff".data then ImageFormat.Farbfeld
  else if ext = "avif".data then ImageFormat.Avif
  else if ext = "qoi".data then ImageFormat.Qoi
  else ImageFormat.Unsupported

/-- ImageFormat::from(String): the extension table, Unsupported otherwise. -/
def format_from_string (ext : List Char) : ImageFormat :=
  ext_to_format ext

/-- ImageFormat::from_file_name: unwraps Path::extension (none models the
panic on a missing extension), then applies the extension table. -/
def from_file_name (file_name : List Char) : Option ImageFormat :=
  (rustExtension file_name).map ext_to_format

/-- Decision taken by run_benchmark's pre-dispatch filter for one directory
entry (benchmark.rs lines 441-446). -/
inductive FilterDecision where
  | dispatch
  | skip
deriving DecidableEq

/-- The pre-dispatch unsupported-file filter of Benchmarker::run_benchmark:
skip on Unsupported, dispatch otherwise; none models the panic inherited
from ImageFormat::from_file_name. -/
def run_benchmark_filter (path : List Char) : Option FilterDecision :=
  match from_file_name path with
  | none => none
  | some ImageFormat.Unsupported => some FilterDecision.skip
  | some _ => some FilterDecision.dispatch

/-! Provenance fields of an ImageFileData record (the JXLString, JXLf32 and
JXLu32 wrappers hold optional values; none is the absent state). -/

/-- The provenance fields of an ImageFileData record: origin image name,
encoder distance and encoder effort, each optional. -/
structure Provenance where
  jxl_orig_image_name : Option (List Char)
  jxl_distance : Option ℚ
  jxl_effort : Option Nat
deriving DecidableEq

/-- CSV serialization of an optional provenance string (JXLString::to_string):
the value itself, or the empty string when absent. -/
def jxl_string_serialize (v : Option (List Char)) : List Char :=
  match v with
  | some s => s
  | none => []

/-- ImageReader::read_jxl restricted to the fields recovered from the file
name; none models the panics (missing or wrong extension, and the
out-of-range slice parts[0..len-2] when the name has fewer than two
dash-separated parts). Distance and effort parse failures yield absent
fields, not panics. -/
def read_jxl (file_path : List Char) : Option Provenance :=
  let file_name := rustFileName file_path
  match rustExtension file_path with
  | none => none
  | some ext =>
    if ext ≠ "jxl".data then none
    else
      let parts := splitOnChar '-' file_name
      if parts.length < 2 then none
      else
        some
          { jxl_orig_image_name := some (joinSep '-' (parts.take (parts.length - 2)))
            jxl_distance := parse_f32 (parts.getD (parts.length - 2) [])
            jxl_effort := parse_u32 ((splitOnChar '.' (parts.getLastD [])).headD []) }

/-- ImageReader::new restricted to the provenance fields: panic (none) on an
unsupported extension, delegate to read_jxl for .jxl files, and absent
provenance for every other supported source image (the pixel decode is
external I/O outside the model). -/
def image_reader_new (file_path : List Char) : Option Provenance :=
  let ext := (rustExtension file_path).getD []
  if format_from_string ext = ImageFormat.Unsupported then none
  else if ext = "jxl".data then read_jxl file_path
  else some { jxl_orig_image_name := none, jxl_distance := none, jxl_effort := none }

/-! The sweep grid: JXLCompressionBenchmark::run (benchmark.rs lines 635-696)
and DockerManager::execute_cjxl (docker_manager.rs lines 100-137). -/

/-- The fixed distance grid of the JXL compression benchmark. -/
def distances : List ℚ :=
  [1/2, 1, 3/2, 3, 4, 6, 8, 10, 12, 14]

/-- The fixed effort grid (5..=9).collect(). -/
def efforts : List Nat :=
  [5, 6, 7, 8, 9]

/-- Rust Display of an f64 from the half-integer distance grid: integral
values print without a decimal point, half-integral ones with the suffix
".5" (shortest-round-trip display restricted to the grid's values). -/
def showDistance (d : ℚ) : List Char :=
  if d.den = 1 then (toString d.num).data
  else (toString (d.num / 2)).data ++ ['.', '5']

/-- Name suffix "-distance-effort.jxl" attached to a compressed image. -/
def distEffortSuffix (d : ℚ) (e : Nat) : List Char :=
  "-".data ++ showDistance d ++ "-".data ++ (toString e).data ++ ".".data ++ "jxl".data

/-- Compressed image name format "name-distance-effort.jxl" from
JXLCompressionBenchmark::run (ImageFormat::JpegXl prints as jxl). -/
def mkCompImageName (name : List Char) (d : ℚ) (e : Nat) : List Char :=
  name ++ "-".data ++ showDistance d ++ "-".data ++ (toString e).data ++ ".".data ++ "jxl".data

/-- Argument vector DockerManager::execute_cjxl passes to the cjxl tool. -/
def execute_cjxl_args (input_file output_file : List Char) (d : ℚ) (e : Nat) : List (List Char) :=
  [input_file, output_file,
    "--distance=".data ++ showDistance d,
    "--effort=".data ++ (toString e).data]

/-- One encoder invocation of the sweep: grid point, output name, cjxl
argument vector. -/
structure CjxlInvocation where
  distance : ℚ
  effort : Nat
  comp_image_name : List Char
  args : List (List Char)
deriving DecidableEq

/-- The invocation sequence JXLCompressionBenchmark::run produces for one
dispatched image: distance as the outer loop over the fixed grid, effort as
the inner loop. -/
def sweepInvocations (file_path name : List Char) : List CjxlInvocation :=
  distances.flatMap fun d =>
    efforts.map fun e =>
      { distance := d
        effort := e
        comp_image_name := mkCompImageName name d e
        args := execute_cjxl_args file_path (mkCompImageName name d e) d e }

/-! The comparison engine: JXLCompressionBenchmark::compare_results
(benchmark.rs lines 707-855) over the rows of csv_writer.rs. -/

/-- One row of a comparisons.csv log (struct ComparisonResult): sizes are
u64 values, every floating-point metric an exact rational. -/
structure ComparisonResult where
  orig_image_name : String
  comp_image_name : String
  distance : ℚ
  effort : Nat
  orig_file_size : Nat
  comp_file_size : Nat
  orig_raw_size : Nat
  comp_raw_size : Nat
  comp_file_size_ratio : ℚ
  raw_file_size_ratio : ℚ
  mse : ℚ
  psnr : ℚ
  ssim : ℚ
  ms_ssim : ℚ
  butteraugli : ℚ
  butteraugli_pnorm : ℚ
  ssimulacra2 : ℚ
deriving DecidableEq

/-- One row of the comparison_diffs.csv output (struct ComparisonResultDiff). -/
structure ComparisonResultDiff where
  orig_image_name : String
  comp_image_name : String
  distance : ℚ
  effort : Nat
  diff_orig_file_size : ℚ
  diff_comp_file_size : ℚ
  diff_orig_raw_size : ℚ
  diff_comp_raw_size : ℚ
  diff_comp_file_size_ratio : ℚ
  diff_raw_file_size_ratio : ℚ
  diff_mse : ℚ
  diff_psnr : ℚ
  diff_ssim : ℚ
  diff_ms_ssim : ℚ
  diff_butteraugli : ℚ
  diff_butteraugli_pnorm : ℚ
  diff_ssimulacra2 : ℚ
deriving DecidableEq

/-- Identity fields that compare_results asserts equal at each index. -/
abbrev identMatch (r1 r2 : ComparisonResult) : Prop :=
  r1.orig_image_name = r2.orig_image_name ∧
  r1.comp_image_name = r2.comp_image_name ∧
  r1.distance = r2.distance ∧
  r1.effort = r2.effort

/-- Elementwise difference diff = result_2 - result_1 with identity fields
carried from result_1 (the loop body of compare_results). -/
def mkDiff (r1 r2 : ComparisonResult) : ComparisonResultDiff :=
  { orig_image_name := r1.orig_image_name
    comp_image_name := r1.comp_image_name
    distance := r1.distance
    effort := r1.effort
    diff_orig_file_size := (r2.orig_file_size : ℚ) - (r1.orig_file_size : ℚ)
    diff_comp_file_size := (r2.comp_file_size : ℚ) - (r1.comp_file_size : ℚ)
    diff_orig_raw_size := (r2.orig_raw_size : ℚ) - (r1.orig_raw_size : ℚ)
    diff_comp_raw_size := (r2.comp_raw_size : ℚ) - (r1.comp_raw_size : ℚ)
    diff_comp_file_size_ratio := r2.comp_file_size_ratio - r1.comp_file_size_ratio
    diff_raw_file_size_ratio := r2.raw_file_size_ratio - r1.raw_file_size_ratio
    diff_mse := r2.mse - r1.mse
    diff_psnr := r2.psnr - r1.psnr
    diff_ssim := r2.ssim - r1.ssim
    diff_ms_ssim := r2.ms_ssim - r1.ms_ssim
    diff_butteraugli := r2.butteraugli - r1.butteraugli
    diff_butteraugli_pnorm := r2.butteraugli_pnorm - r1.butteraugli_pnorm
    diff_ssimulacra2 := r2.ssimulacra2 - r1.ssimulacra2 }

/-- Sorting a log by original image name: the stable sort_by of
compare_results, modelled as a stable insertion sort under the
lexicographic string order. -/
def sortByName (l : List ComparisonResult) : List ComparisonResult :=
  l.insertionSort fun a b => a.orig_image_name ≤ b.orig_image_name

/-- The index loop of compare_results: assert the identity fields equal at
each position (none models the assert! panic) and collect the elementwise
diffs. -/
def diffRows : List ComparisonResult → List ComparisonResult → Option (List ComparisonResultDiff)
  | [], [] => some []
  | r1 :: t1, r2 :: t2 =>
    if identMatch r1 r2 then
      (diffRows t1 t2).map fun rest => mkDiff r1 r2 :: rest
    else none
  | _, _ => none

/-- The Summary accumulator's initial state: identity strings set to the
literal Summary marker, distance and effort zeroed, every numeric field 0. -/
def summaryInit : ComparisonResultDiff :=
  { orig_image_name := "Summary"
    comp_image_name := "Summary"
    distance := 0
    effort := 0
    diff_orig_file_size := 0
    diff_comp_file_size := 0
    diff_orig_raw_size := 0
    diff_comp_raw_size := 0
    diff_comp_file_size_ratio := 0
    diff_raw_file_size_ratio := 0
    diff_mse := 0
    diff_psnr := 0
    diff_ssim := 0
    diff_ms_ssim := 0
    diff_butteraugli := 0
    diff_butteraugli_pnorm := 0
    diff_ssimulacra2 := 0 }

/-- One step of the summary accumulation loop: add every numeric field of a
diff row into the summary. -/
def summaryAdd (s r : ComparisonResultDiff) : ComparisonResultDiff :=
  { s with
    diff_orig_file_size := s.diff_orig_file_size + r.diff_orig_file_size
    diff_comp_file_size := s.diff_comp_file_size + r.diff_comp_file_size
    diff_orig_raw_size := s.diff_orig_raw_size + r.diff_orig_raw_size
    diff_comp_raw_size := s.diff_comp_raw_size + r.diff_comp_raw_size
    diff_comp_file_size_ratio := s.diff_comp_file_size_ratio + r.diff_comp_file_size_ratio
    diff_raw_file_size_ratio := s.diff_raw_file_size_ratio + r.diff_raw_file_size_ratio
    diff_mse := s.diff_mse + r.diff_mse
    diff_psnr := s.diff_psnr + r.diff_psnr
    diff_ssim := s.diff_ssim + r.diff_ssim
    diff_ms_ssim := s.diff_ms_ssim + r.diff_ms_ssim
    diff_butteraugli := s.diff_butteraugli + r.diff_butteraugli
    diff_butteraugli_pnorm := s.diff_butteraugli_pnorm + r.diff_butteraugli_pnorm
    diff_ssimulacra2 := s.diff_ssimulacra2 + r.diff_ssimulacra2 }

/-- The final division of every accumulated numeric field by the number of
diff rows. -/
def summaryDiv (s : ComparisonResultDiff) (n : ℚ) : ComparisonResultDiff :=
  { s with
    diff_orig_file_size := s.diff_orig_file_size / n
    diff_comp_file_size := s.diff_comp_file_size / n
    diff_orig_raw_size := s.diff_orig_raw_size / n
    diff_comp_raw_size := s.diff_comp_raw_size / n
    diff_comp_file_size_ratio := s.diff_comp_file_size_ratio / n
    diff_raw_file_size_ratio := s.diff_raw_file_size_ratio / n
    diff_mse := s.diff_mse / n
    diff_psnr := s.diff_psnr / n
    diff_ssim := s.diff_ssim / n
    diff_ms_ssim := s.diff_ms_ssim / n
    diff_butteraugli := s.diff_butteraugli / n
    diff_butteraugli_pnorm := s.diff_butteraugli_pnorm / n
    diff_ssimulacra2 := s.diff_ssimulacra2 / n }

/-- The summary synthesis of compare_results: accumulate every diff row onto
the Summary-marked zero record, then divide each numeric field by the row
count. -/
def summarize (diffs : List ComparisonResultDiff) : ComparisonResultDiff :=
  summaryDiv (diffs.foldl summaryAdd summaryInit) (diffs.length : ℚ)

/-- JXLCompressionBenchmark::compare_results: sort both logs by original
image name, assert equal lengths (none models the assert! panic), diff the
rows pairwise and synthesize the summary record. -/
def compare_results (results_1 results_2 : List ComparisonResult) :
    Option (List ComparisonResultDiff × ComparisonResultDiff) :=
  let sorted_1 := sortByName results_1
  let sorted_2 := sortByName results_2
  if sorted_1.length = sorted_2.length then
    match diffRows sorted_1 sorted_2 with
    | none => none
    | some diffs => some (diffs, summarize diffs)
  else none

/-! The run-number resolver: Benchmarker::get_current_run (benchmark.rs
lines 280-302). The benchmark directory is modelled as none when it does
not exist, or the list of its child entry names. -/

/-- One iteration of get_current_run's directory scan: a child name that
parses as a usize raises the candidate run number to run + 1, computed in
usize arithmetic, so the increment wraps modulo 2^64 when run is
usize::MAX (release-build overflow semantics; a debug build would panic at
the same input). -/
def run_candidate (cur : Nat) (name : List Char) : Nat :=
  match parse_usize name with
  | none => cur
  | some run => if run ≥ cur then (run + 1) % 2 ^ 64 else cur

/-- Benchmarker::get_current_run: 0 for a missing directory, otherwise the
scan over all child names starting from 0. -/
def get_current_run : Option (List (List Char)) → Nat
  | none => 0
  | some entries => entries.foldl run_candidate 0

/-! The comparison-log policy at the end of a test set:
Benchmarker::run_benchmark (benchmark.rs lines 554-563). -/

/-- What run_benchmark does with the accumulated comparison CSV list after
the barrier: the two panic branches keep their distinct messages. -/
inductive PhaseAction where
  | compare (first second : String)
  | continueTestSet
  | panicMoreThanTwo
  | panicNone
deriving DecidableEq

/-- The phase-boundary dispatch on comparison_csvs.len() after
wait_for_all_workers. -/
def comparison_phase (comparison_csvs : List String) : PhaseAction :=
  if h : comparison_csvs.length = 2 then
    PhaseAction.compare (comparison_csvs.get ⟨0, by omega⟩) (comparison_csvs.get ⟨1, by omega⟩)
  else if comparison_csvs.length = 1 then PhaseAction.continueTestSet
  else if comparison_csvs.length > 2 then PhaseAction.panicMoreThanTwo
  else PhaseAction.panicNone

/-! The worker pool: Benchmarker::get_next_worker_id,
wait_for_available_worker and BenchmarkWorker::run (benchmark.rs lines
81-104, 206-213 and 338-353). A worker's thread handle is modelled by
whether one is present; the payload contents do not affect dispatch. -/

/-- Dispatch-relevant state of one BenchmarkWorker: the working flag and
whether a thread handle is held. -/
structure BenchmarkWorker where
  working : Bool
  has_thread_handle : Bool
deriving DecidableEq

/-- Dispatch-relevant state of the Benchmarker. -/
structure Benchmarker where
  current_worker_id : Nat
  num_workers : Nat
  workers : List BenchmarkWorker
deriving DecidableEq

/-- Benchmarker::get_next_worker_id: returns the cursor, then advances it,
wrapping to 0 once it reaches num_workers. -/
def get_next_worker_id (b : Benchmarker) : Nat × Benchmarker :=
  let id := b.current_worker_id
  let next := b.current_worker_id + 1
  (id, { b with current_worker_id := if next ≥ b.num_workers then 0 else next })

/-- Replaces the state of worker id. -/
def set_worker (b : Benchmarker) (id : Nat) (w : BenchmarkWorker) : Benchmarker :=
  { b with workers := b.workers.set id w }

/-- Benchmarker::wait_for_available_worker: pick the round-robin target; if
it is working, join its thread (none models the panic when a working worker
holds no thread handle). Rust indexing out of range is also a panic. -/
def wait_for_available_worker (b : Benchmarker) : Option (Nat × Benchmarker) :=
  let idb := get_next_worker_id b
  match idb.2.workers.get? idb.1 with
  | none => none
  | some w =>
    if w.working then
      if w.has_thread_handle then
        some (idb.1, set_worker idb.2 idb.1 { working := false, has_thread_handle := false })
      else none
    else some (idb.1, idb.2)

/-- BenchmarkWorker::run: join any leftover thread, mark the worker working
and spawn the new background thread. -/
def worker_run (b : Benchmarker) (id : Nat) : Benchmarker :=
  set_worker b id { working := true, has_thread_handle := true }

/-- One dispatch of run_benchmark's inner loop: wait for the round-robin
target to be free, then start the benchmark on it. -/
def dispatch (b : Benchmarker) : Option (Nat × Benchmarker) :=
  (wait_for_available_worker b).map fun idb => (idb.1, worker_run idb.2 idb.1)

/-- The first k dispatches from a state, with the list of targeted worker
ids; none models a panic in any of them. -/
def dispatchSeq (b : Benchmarker) : Nat → Option (List Nat × Benchmarker)
  | 0 => some ([], b)
  | k + 1 =>
    match dispatchSeq b k with
    | none => none
    | some (ids, b1) =>
      match dispatch b1 with
      | none => none
      | some (id, b2) => some (ids ++ [id], b2)

/-- The pool right after Benchmarker::new: cursor 0, w workers, none
working, none holding a thread handle. -/
def initState (w : Nat) : Benchmarker :=
  { current_worker_id := 0
    num_workers := w
    workers := List.replicate w { working := false, has_thread_handle := false } }

/-- Invariant of the dispatch loop: cursor in range, worker list length
matching num_workers, and every working worker holding a thread handle. -/
def PoolInv (b : Benchmarker) : Prop :=
  b.current_worker_id < b.num_workers ∧
  b.workers.length = b.num_workers ∧
  ∀ w ∈ b.workers, w.working = true → w.has_thread_handle = true

/-! Butteraugli output handling: calculate_butteraugli (metrics.rs lines
96-121), taking the tool's captured output text. -/

/-- The calculate_butteraugli parsing stage: the distance from the first
output line, the p-norm from the last whitespace-separated token of the
last line, each falling back to 0.0 when it does not parse as a number
(unwrap_or into 0.0); none models the unwrap panics when the output has no
lines or the last line has no token. -/
def calculate_butteraugli (output : List Char) : Option (ℚ × ℚ) :=
  match rustLines output with
  | [] => none
  | first :: rest =>
    let butteraugli := (parse_f64 first).getD 0
    let lastLine := (first :: rest).getLastD []
    match (split_whitespace lastLine).getLast? with
    | none => none
    | some tok => some (butteraugli, (parse_f64 tok).getD 0)

/-! Concrete sample data used by the witnesses. -/

/-- A sample comparisons.csv row with every metric field set to m. -/
def mkSample (oname cname : String) (d : ℚ) (e : Nat) (m : ℚ) : ComparisonResult :=
  { orig_image_name := oname
    comp_image_name := cname
    distance := d
    effort := e
    orig_file_size := 100
    comp_file_size := 80
    orig_raw_size := 120
    comp_raw_size := 90
    comp_file_size_ratio := m
    raw_file_size_ratio := m
    mse := m
    psnr := m
    ssim := m
    ms_ssim := m
    butteraugli := m
    butteraugli_pnorm := m
    ssimulacra2 := m }

/-- Sample first-revision comparison log. -/
def sampleLogA : List ComparisonResult :=
  [mkSample "a" "a-1-5.jxl" 1 5 30]

/-- Sample second-revision comparison log whose metric columns differ from
the first log by 2. -/
def sampleLogB : List ComparisonResult :=
  [mkSample "a" "a-1-5.jxl" 1 5 32]

/-! Lemmas on the string-splitting primitives. -/

theorem splitOnPred_ne_nil (p : Char → Bool) (s : List Char) : splitOnPred p s ≠ [] := by
  cases s with
  | nil => simp [splitOnPred]
  | cons c rest =>
    rw [splitOnPred]
    cases h : splitOnPred p rest with
    | nil => simp
    | cons a t => by_cases hp : p c <;> simp [hp]

theorem splitOnChar_append (sep : Char) (a b : List Char) :
    splitOnChar sep (a ++ sep :: b) = splitOnChar sep a ++ splitOnChar sep b := by
  induction a with
  | nil =>
    simp only [List.nil_append, splitOnChar, splitOnPred, beq_self_eq_true, if_true]
    cases h : splitOnPred (fun c => c == sep) b with
    | nil => exact absurd h (splitOnPred_ne_nil _ _)
    | cons x t => simp
  | cons c a ih =>
    simp only [List.cons_append, splitOnChar] at ih ⊢
    rw [splitOnPred, ih, splitOnPred]
    cases h : splitOnPred (fun x => x == sep) a with
    | nil => exact absurd h (splitOnPred_ne_nil _ _)
    | cons x t => by_cases hp : (c == sep) <;> simp [hp]

theorem splitOnChar_of_not_mem (sep : Char) (a : List Char) (h : sep ∉ a) :
    splitOnChar sep a = [a] := by
  induction a with
  | nil => rfl
  | cons c a ih =>
    have hc : (c == sep) = false := by
      simp only [beq_eq_false_iff_ne, ne_eq]
      intro hcc
      exact h (hcc ▸ List.mem_cons_self c a)
    have ha : sep ∉ a := fun hm => h (List.mem_cons_of_mem _ hm)
    simp only [splitOnChar] at ih ⊢
    rw [splitOnPred, ih ha, hc]
    simp

theorem splitOnChar_ne_nil (sep : Char) (s : List Char) : splitOnChar sep s ≠ [] :=
  splitOnPred_ne_nil _ _

theorem splitOnChar_cons (sep c : Char) (rest : List Char) (x : List Char) (t : List (List Char))
    (h : splitOnChar sep rest = x :: t) :
    splitOnChar sep (c :: rest) = if c == sep then [] :: x :: t else (c :: x) :: t := by
  simp only [splitOnChar, splitOnPred] at h ⊢
  rw [h]

theorem joinSep_splitOnChar (sep : Char) (s : List Char) :
    joinSep sep (splitOnChar sep s) = s := by
  induction s with
  | nil => rfl
  | cons c rest ih =>
    cases h : splitOnChar sep rest with
    | nil => exact absurd h (splitOnChar_ne_nil _ _)
    | cons x t =>
      rw [h] at ih
      rw [splitOnChar_cons sep c rest x t h]
      by_cases hp : (c == sep)
      · have hcs : c = sep := by simpa using hp
        rw [if_pos hp]
        simp only [joinSep, List.nil_append]
        rw [ih, hcs]
      · rw [if_neg hp]
        cases t with
        | nil =>
          simp only [joinSep] at ih ⊢
          rw [ih]
        | cons y t2 =>
          simp only [joinSep] at ih ⊢
          rw [List.cons_append, ih]

/-! Claim C3: the run-number resolver. -/

theorem foldr_max_mem_le (l : List Nat) (x : Nat) (hx : x ∈ l) : x ≤ l.foldr max 0 := by
  induction l with
  | nil => cases hx
  | cons a t ih =>
    rcases List.mem_cons.mp hx with h | h
    · simp [h, le_max_iff]
    · simp [le_max_iff, ih h]

theorem foldl_run_candidate (entries : List (List Char)) (cur : Nat)
    (hb : ∀ v ∈ entries.filterMap parse_usize, v + 1 < 2 ^ 64) :
    entries.foldl run_candidate cur =
      max cur (((entries.filterMap parse_usize).map (fun v => v + 1)).foldr max 0) := by
  induction entries generalizing cur with
  | nil => simp
  | cons e t ih =>
    have hbt : ∀ v ∈ t.filterMap parse_usize, v + 1 < 2 ^ 64 := by
      intro v hv
      obtain ⟨a, ha, hpa⟩ := List.mem_filterMap.mp hv
      exact hb v (List.mem_filterMap.mpr ⟨a, List.mem_cons_of_mem _ ha, hpa⟩)
    rw [List.foldl_cons, ih _ hbt]
    cases h : parse_usize e with
    | none =>
      rw [run_candidate]
      simp [h, List.filterMap_cons]
    | some v =>
      have hv1 : v + 1 < 2 ^ 64 := hb v (by simp [List.filterMap_cons, h])
      rw [run_candidate]
      simp only [h, List.filterMap_cons, List.map_cons, List.foldr_cons]
      rw [Nat.mod_eq_of_lt hv1]
      split <;> omega

theorem foldr_max_map_succ (l : List Nat) (hl : l ≠ []) :
    (l.map (fun v => v + 1)).foldr max 0 = l.foldr max 0 + 1 := by
  induction l with
  | nil => exact absurd rfl hl
  | cons a t ih =>
    cases t with
    | nil => simp
    | cons b t2 =>
      simp only [List.map_cons, List.foldr_cons] at ih ⊢
      rw [ih (by simp)]
      omega

/-- Claim C3, as amended: get_current_run returns 0 when the benchmark
root does not exist or has no child whose name parses as a non-negative
integer, silently skipping non-numeric children; and provided every
numeric child value is below usize::MAX (so the usize increment value + 1
does not overflow), it returns one plus the largest numeric child name,
strictly greater than every numeric-named child. The unconditional claim
fails at a child named 2^64 - 1, where the source's usize increment
overflows (see the counterexample get_current_run_overflow). -/
theorem get_current_run_spec :
    get_current_run none = 0 ∧
    (∀ entries : List (List Char), entries.filterMap parse_usize = [] →
      get_current_run (some entries) = 0) ∧
    (∀ entries : List (List Char),
      (∀ v ∈ entries.filterMap parse_usize, v + 1 < 2 ^ 64) →
      (∀ v ∈ entries.filterMap parse_usize, v < get_current_run (some entries)) ∧
      (entries.filterMap parse_usize ≠ [] →
        get_current_run (some entries) = (entries.filterMap parse_usize).foldr max 0 + 1)) := by
  refine ⟨rfl, ?_, ?_⟩
  · intro entries h
    rw [get_current_run, foldl_run_candidate _ _ (by simp [h]), h]
    simp
  · intro entries hb
    constructor
    · intro v hv
      rw [get_current_run, foldl_run_candidate _ _ hb]
      have h1 : v + 1 ∈ (entries.filterMap parse_usize).map (fun v => v + 1) :=
        List.mem_map_of_mem _ hv
      have h2 := foldr_max_mem_le _ _ h1
      omega
    · intro h
      rw [get_current_run, foldl_run_candidate _ _ hb, foldr_max_map_succ _ h]
      omega

/-- Witness for C3: a root with children 0, 1, 5 and temp resolves to run 6,
and a missing root resolves to run 0. -/
theorem get_current_run_spec_witness :
    get_current_run (some ["0".data, "1".data, "5".data, "temp".data]) = 6 ∧
    get_current_run none = 0 := by
  constructor
  · have h := (get_current_run_spec.2.2 ["0".data, "1".data, "5".data, "temp".data]
      (by decide)).2 (by decide)
    rw [h]
    decide
  · exact get_current_run_spec.1

/-- Counterexample to C3 as frozen: a child named 18446744073709551615
(usize::MAX) is a numeric child — parse_usize itself admits it — yet the
usize increment run + 1 wraps, so the resolver returns 0: neither one plus
the maximum numeric child nor strictly greater than that child. (A
debug-profile build panics at the same input instead of wrapping.) -/
theorem get_current_run_overflow :
    ["18446744073709551615".data].filterMap parse_usize = [18446744073709551615] ∧
    get_current_run (some ["18446744073709551615".data]) = 0 ∧
    ¬ 18446744073709551615 < get_current_run (some ["18446744073709551615".data]) := by
  refine ⟨by decide, by decide, by decide⟩

/-! Claim C4: the comparison-log count policy at the phase boundary. -/

/-- Claim C4: after the barrier in run_benchmark, exactly one accumulated
comparison log means continue with no comparison, exactly two logs is the
only case in which a comparison is computed (on the two logs in order), and
zero logs or more than two logs is a fatal panic. -/
theorem comparison_phase_spec :
    (∀ csvs : List String, csvs.length = 1 →
      comparison_phase csvs = PhaseAction.continueTestSet) ∧
    (∀ a b : String, comparison_phase [a, b] = PhaseAction.compare a b) ∧
    (∀ csvs : List String,
      (∃ a b, comparison_phase csvs = PhaseAction.compare a b) ↔ csvs.length = 2) ∧
    comparison_phase [] = PhaseAction.panicNone ∧
    (∀ csvs : List String, csvs.length > 2 →
      comparison_phase csvs = PhaseAction.panicMoreThanTwo) := by
  refine ⟨?_, ?_, ?_, rfl, ?_⟩
  · intro csvs h
    rw [comparison_phase, dif_neg (by omega), if_pos h]
  · intro a b
    rfl
  · intro csvs
    constructor
    · rintro ⟨a, b, hab⟩
      by_contra hne
      rw [comparison_phase, dif_neg hne] at hab
      by_cases h1 : csvs.length = 1
      · rw [if_pos h1] at hab; cases hab
      · rw [if_neg h1] at hab
        by_cases h2 : csvs.length > 2
        · rw [if_pos h2] at hab; cases hab
        · rw [if_neg h2] at hab; cases hab
    · intro h
      rw [comparison_phase, dif_pos h]
      exact ⟨_, _, rfl⟩
  · intro csvs h
    rw [comparison_phase, dif_neg (by omega), if_neg (by omega), if_pos h]

/-- Witness for C4: one log continues, two logs compare in order, zero and
three logs panic. -/
theorem comparison_phase_spec_witness :
    comparison_phase ["x"] = PhaseAction.continueTestSet ∧
    comparison_phase ["x", "y"] = PhaseAction.compare "x" "y" ∧
    comparison_phase [] = PhaseAction.panicNone ∧
    comparison_phase ["x", "y", "z"] = PhaseAction.panicMoreThanTwo := by
  exact ⟨comparison_phase_spec.1 ["x"] rfl, comparison_phase_spec.2.1 "x" "y",
    comparison_phase_spec.2.2.2.1, comparison_phase_spec.2.2.2.2 ["x", "y", "z"] (by decide)⟩

/-! Claim C5: round-robin dispatch with join-before-reassign. -/

theorem wait_eq (b : Benchmarker) (w : BenchmarkWorker)
    (hw : b.workers.get? b.current_worker_id = some w) :
    wait_for_available_worker b =
      if w.working then
        if w.has_thread_handle then
          some (b.current_worker_id,
            set_worker
              { b with current_worker_id :=
                  if b.current_worker_id + 1 ≥ b.num_workers then 0 else b.current_worker_id + 1 }
              b.current_worker_id { working := false, has_thread_handle := false })
        else none
      else
        some (b.current_worker_id,
          { b with current_worker_id :=
              if b.current_worker_id + 1 ≥ b.num_workers then 0 else b.current_worker_id + 1 }) := by
  simp only [wait_for_available_worker, get_next_worker_id, hw]

theorem wait_for_available_worker_not_working (b : Benchmarker) (id : Nat) (b1 : Benchmarker)
    (h : wait_for_available_worker b = some (id, b1)) :
    ∃ w, b1.workers.get? id = some w ∧ w.working = false := by
  cases hw : b.workers.get? b.current_worker_id with
  | none =>
    simp only [wait_for_available_worker, get_next_worker_id, hw] at h
    exact Option.noConfusion h
  | some w =>
    rw [wait_eq b w hw] at h
    have hlt : b.current_worker_id < b.workers.length :=
      List.get?_eq_some.mp hw |>.1
    cases hwk : w.working with
    | false =>
      rw [hwk] at h
      simp only [Bool.false_eq_true, if_false, Option.some.injEq, Prod.mk.injEq] at h
      obtain ⟨hid, hb1⟩ := h
      refine ⟨w, ?_, hwk⟩
      rw [← hb1, ← hid]
      simpa using hw
    | true =>
      rw [hwk] at h
      cases hth : w.has_thread_handle with
      | false => rw [hth] at h; simp at h
      | true =>
        rw [hth] at h
        simp only [if_true, Option.some.injEq, Prod.mk.injEq] at h
        obtain ⟨hid, hb1⟩ := h
        refine ⟨{ working := false, has_thread_handle := false }, ?_, rfl⟩
        rw [← hb1, ← hid, set_worker]
        rw [List.get?_eq_getElem?]
        simp [List.getElem?_set_self, hlt]

theorem dispatch_step (b : Benchmarker) (hinv : PoolInv b) :
    ∃ b2, dispatch b = some (b.current_worker_id, b2) ∧ PoolInv b2 ∧
      b2.num_workers = b.num_workers ∧
      b2.current_worker_id = (b.current_worker_id + 1) % b.num_workers := by
  obtain ⟨hcur, hlen, hwork⟩ := hinv
  have hlt : b.current_worker_id < b.workers.length := by omega
  have hw : b.workers.get? b.current_worker_id =
      some (b.workers.get ⟨b.current_worker_id, hlt⟩) := by
    simp [List.get?_eq_getElem?, List.getElem?_eq_getElem, hlt]
  have hmem : b.workers.get ⟨b.current_worker_id, hlt⟩ ∈ b.workers := List.get_mem _ _ hlt
  have hcursor :
      (if b.current_worker_id + 1 ≥ b.num_workers then 0 else b.current_worker_id + 1)
        = (b.current_worker_id + 1) % b.num_workers := by
    by_cases hge : b.current_worker_id + 1 ≥ b.num_workers
    · have heq : b.current_worker_id + 1 = b.num_workers := by omega
      rw [if_pos hge, heq, Nat.mod_self]
    · rw [if_neg hge, Nat.mod_eq_of_lt (by omega)]
  have hmodlt : (b.current_worker_id + 1) % b.num_workers < b.num_workers :=
    Nat.mod_lt _ (by omega)
  cases hwk : (b.workers.get ⟨b.current_worker_id, hlt⟩).working with
  | false =>
    refine ⟨set_worker { b with current_worker_id := (b.current_worker_id + 1) % b.num_workers }
        b.current_worker_id { working := true, has_thread_handle := true },
      ?_, ⟨?_, ?_, ?_⟩, rfl, rfl⟩
    · unfold dispatch
      rw [wait_eq b _ hw, hwk]
      simp only [Bool.false_eq_true, if_false, Option.map_some']
      rw [hcursor]
      rfl
    · simpa [set_worker] using hmodlt
    · simpa [set_worker] using hlen
    · intro w' hw' hwk'
      simp only [set_worker] at hw'
      rcases List.mem_or_eq_of_mem_set hw' with hmem' | hEq
      · exact hwork w' hmem' hwk'
      · rw [hEq]
  | true =>
    have hth : (b.workers.get ⟨b.current_worker_id, hlt⟩).has_thread_handle = true :=
      hwork _ hmem hwk
    refine ⟨set_worker
        (set_worker { b with current_worker_id := (b.current_worker_id + 1) % b.num_workers }
          b.current_worker_id { working := false, has_thread_handle := false })
        b.current_worker_id { working := true, has_thread_handle := true },
      ?_, ⟨?_, ?_, ?_⟩, rfl, rfl⟩
    · unfold dispatch
      rw [wait_eq b _ hw, hwk, hth]
      simp only [if_true, Option.map_some']
      rw [hcursor]
      rfl
    · simpa [set_worker] using hmodlt
    · simpa [set_worker] using hlen
    · intro w' hw' hwk'
      simp only [set_worker] at hw'
      rcases List.mem_or_eq_of_mem_set hw' with hmem' | hEq
      · rcases List.mem_or_eq_of_mem_set hmem' with hmem'' | hEq'
        · exact hwork w' hmem'' hwk'
        · rw [hEq'] at hwk'
          exact absurd hwk' (by simp)
      · rw [hEq]

theorem mod_add_one_mod (k W : Nat) : (k % W + 1) % W = (k + 1) % W := by
  conv_rhs => rw [Nat.add_mod]
  rw [Nat.add_mod (k % W) 1]
  simp

theorem dispatchSeq_spec (W : Nat) (hW : 0 < W) (k : Nat) :
    ∃ bk, dispatchSeq (initState W) k = some ((List.range k).map (fun i => i % W), bk) ∧
      PoolInv bk ∧ bk.num_workers = W ∧ bk.current_worker_id = k % W := by
  induction k with
  | zero =>
    refine ⟨initState W, by simp [dispatchSeq], ⟨?_, ?_, ?_⟩, rfl, by simp [initState]⟩
    · simpa [initState] using hW
    · simp [initState]
    · intro w hw
      simp only [initState, List.mem_replicate] at hw
      rw [hw.2]
      intro h
      cases h
  | succ k ih =>
    obtain ⟨bk, hseq, hinv, hnum, hcur⟩ := ih
    obtain ⟨b2, hd, hinv2, hnum2, hcur2⟩ := dispatch_step bk hinv
    refine ⟨b2, ?_, hinv2, hnum2.trans hnum, ?_⟩
    · rw [dispatchSeq]
      simp only [hseq, hd, List.range_succ, List.map_append, List.map_cons, List.map_nil]
      simp [hcur, hnum]
    · rw [hcur2, hcur, hnum, mod_add_one_mod]

/-- Claim C5: from the initial pool state, the i-th dispatch (counting from
0) targets worker i mod W, and the round-robin target returned by
wait_for_available_worker is never still working: a busy target's
background thread is joined before the worker is reassigned. -/
theorem dispatch_round_robin (W k : Nat) (hW : 0 < W) :
    (∃ b, dispatchSeq (initState W) k = some ((List.range k).map (fun i => i % W), b)) ∧
    (∀ (b : Benchmarker) (id : Nat) (b1 : Benchmarker),
      wait_for_available_worker b = some (id, b1) →
      ∃ w, b1.workers.get? id = some w ∧ w.working = false) := by
  obtain ⟨bk, hseq, _⟩ := dispatchSeq_spec W hW k
  exact ⟨⟨bk, hseq⟩, wait_for_available_worker_not_working⟩

/-- Witness for C5: two workers, five dispatches, targets 0 1 0 1 0. -/
theorem dispatch_round_robin_witness :
    ∃ b, dispatchSeq (initState 2) 5 = some ([0, 1, 0, 1, 0], b) := by
  obtain ⟨b, hb⟩ := (dispatch_round_robin 2 5 (by decide)).1
  rw [show (List.range 5).map (fun i => i % 2) = [0, 1, 0, 1, 0] from by decide] at hb
  exact ⟨b, hb⟩

/-! Claim C6: Butteraugli parse-failure tolerance. -/

/-- Claim C6: when the Butteraugli tool's captured output has at least one
line and its last line has at least one whitespace-separated token,
calculate_butteraugli never aborts on a number that fails to parse: it
returns the pair of parsed values where an unparsable distance
(first line) or p-norm (last token of the last line) is replaced by 0.0. -/
theorem calculate_butteraugli_spec (output first : List Char) (rest : List (List Char))
    (hl : rustLines output = first :: rest) (tok : List Char)
    (ht : (split_whitespace ((first :: rest).getLastD [])).getLast? = some tok) :
    calculate_butteraugli output = some ((parse_f64 first).getD 0, (parse_f64 tok).getD 0) ∧
    (parse_f64 first = none → (parse_f64 first).getD 0 = (0 : ℚ)) ∧
    (parse_f64 tok = none → (parse_f64 tok).getD 0 = (0 : ℚ)) := by
  refine ⟨?_, fun h => by rw [h]; rfl, fun h => by rw [h]; rfl⟩
  simp only [calculate_butteraugli, hl, ht]

/-- Witness for C6: a warning-polluted output whose first line and last
token both fail to parse yields the pair (0, 0), not a panic. -/
theorem calculate_butteraugli_spec_witness :
    calculate_butteraugli ("warning: bad\npnorm: abc".data) = some (0, 0) := by
  have h := (calculate_butteraugli_spec ("warning: bad\npnorm: abc".data)
      ("warning: bad".data) ["pnorm: abc".data] (by decide) ("abc".data) (by decide)).1
  rw [h, show parse_f64 ("warning: bad".data) = none from by decide,
    show parse_f64 ("abc".data) = none from by decide]
  rfl

/-! Claims C1 and C2: the comparison engine. -/

theorem diffRows_of_ident (s1 s2 : List ComparisonResult) (hlen : s1.length = s2.length)
    (hid : ∀ (i : Nat) (h1 : i < s1.length) (h2 : i < s2.length),
      identMatch (s1.get ⟨i, h1⟩) (s2.get ⟨i, h2⟩)) :
    diffRows s1 s2 = some (List.zipWith mkDiff s1 s2) := by
  induction s1 generalizing s2 with
  | nil =>
    cases s2 with
    | nil => rfl
    | cons r t => simp at hlen
  | cons r1 t1 ih =>
    cases s2 with
    | nil => simp at hlen
    | cons r2 t2 =>
      have h0 : identMatch r1 r2 := hid 0 (by simp) (by simp)
      rw [diffRows, if_pos h0,
        ih t2 (by simpa using hlen)
          (fun i hi1 hi2 => hid (i + 1) (Nat.succ_lt_succ hi1) (Nat.succ_lt_succ hi2))]
      rfl

theorem diffRows_eq_none (s1 s2 : List ComparisonResult) (i : Nat)
    (h1 : i < s1.length) (h2 : i < s2.length)
    (hmis : ¬ identMatch (s1.get ⟨i, h1⟩) (s2.get ⟨i, h2⟩)) :
    diffRows s1 s2 = none := by
  induction s1 generalizing s2 i with
  | nil => simp at h1
  | cons r1 t1 ih =>
    cases s2 with
    | nil => simp at h2
    | cons r2 t2 =>
      cases i with
      | zero => rw [diffRows, if_neg (by simpa using hmis)]
      | succ n =>
        by_cases hm : identMatch r1 r2
        · rw [diffRows, if_pos hm,
            ih t2 n (Nat.lt_of_succ_lt_succ h1) (Nat.lt_of_succ_lt_succ h2) hmis]
          rfl
        · rw [diffRows, if_neg hm]

/-- Claim C1: after sorting both logs by original image name, equal lengths
and matching identity fields at every index make compare_results produce
one diff row per index, equal to the elementwise subtraction second minus
first with identity carried from the first log (mkDiff); a length mismatch,
or an identity mismatch at any index, is a panic (none), not a recoverable
error. -/
theorem compare_results_spec (results_1 results_2 : List ComparisonResult) :
    ((sortByName results_1).length = (sortByName results_2).length →
      (∀ (i : Nat) (h1 : i < (sortByName results_1).length)
          (h2 : i < (sortByName results_2).length),
        identMatch ((sortByName results_1).get ⟨i, h1⟩) ((sortByName results_2).get ⟨i, h2⟩)) →
      ∃ diffs, compare_results results_1 results_2 = some (diffs, summarize diffs) ∧
        diffs.length = (sortByName results_1).length ∧
        ∀ (i : Nat) (h1 : i < (sortByName results_1).length)
            (h2 : i < (sortByName results_2).length) (hd : i < diffs.length),
          diffs.get ⟨i, hd⟩ =
            mkDiff ((sortByName results_1).get ⟨i, h1⟩) ((sortByName results_2).get ⟨i, h2⟩)) ∧
    ((sortByName results_1).length ≠ (sortByName results_2).length →
      compare_results results_1 results_2 = none) ∧
    (∀ (i : Nat) (h1 : i < (sortByName results_1).length)
        (h2 : i < (sortByName results_2).length),
      ¬ identMatch ((sortByName results_1).get ⟨i, h1⟩) ((sortByName results_2).get ⟨i, h2⟩) →
      compare_results results_1 results_2 = none) := by
  refine ⟨?_, ?_, ?_⟩
  · intro hlen hid
    refine ⟨List.zipWith mkDiff (sortByName results_1) (sortByName results_2), ?_, ?_, ?_⟩
    · simp only [compare_results]
      rw [if_pos hlen, diffRows_of_ident _ _ hlen hid]
    · simp [hlen]
    · intro i h1 h2 hd
      simp [List.get_eq_getElem, List.getElem_zipWith]
  · intro hne
    simp only [compare_results]
    rw [if_neg hne]
  · intro i h1 h2 hmis
    by_cases hlen : (sortByName results_1).length = (sortByName results_2).length
    · simp only [compare_results]
      rw [if_pos hlen, diffRows_eq_none _ _ i h1 h2 hmis]
    · simp only [compare_results]
      rw [if_neg hlen]

/-- Witness for C1: two aligned one-row logs produce one diff row. -/
theorem compare_results_spec_witness :
    ∃ diffs, compare_results sampleLogA sampleLogB = some (diffs, summarize diffs) ∧
      diffs.length = (sortByName sampleLogA).length := by
  have hid : ∀ (i : Nat) (h1 : i < (sortByName sampleLogA).length)
      (h2 : i < (sortByName sampleLogB).length),
      identMatch ((sortByName sampleLogA).get ⟨i, h1⟩) ((sortByName sampleLogB).get ⟨i, h2⟩) := by
    intro i h1 h2
    have h1' : i < 1 := h1
    have hi : i = 0 := by omega
    subst hi
    exact ⟨rfl, rfl, rfl, rfl⟩
  obtain ⟨diffs, h1, h2, _⟩ := (compare_results_spec sampleLogA sampleLogB).1 rfl hid
  exact ⟨diffs, h1, h2⟩

theorem foldl_summaryAdd (diffs : List ComparisonResultDiff) (init : ComparisonResultDiff) :
    diffs.foldl summaryAdd init =
      { init with
        diff_orig_file_size :=
          init.diff_orig_file_size + (diffs.map (fun r => r.diff_orig_file_size)).sum
        diff_comp_file_size :=
          init.diff_comp_file_size + (diffs.map (fun r => r.diff_comp_file_size)).sum
        diff_orig_raw_size :=
          init.diff_orig_raw_size + (diffs.map (fun r => r.diff_orig_raw_size)).sum
        diff_comp_raw_size :=
          init.diff_comp_raw_size + (diffs.map (fun r => r.diff_comp_raw_size)).sum
        diff_comp_file_size_ratio :=
          init.diff_comp_file_size_ratio + (diffs.map (fun r => r.diff_comp_file_size_ratio)).sum
        diff_raw_file_size_ratio :=
          init.diff_raw_file_size_ratio + (diffs.map (fun r => r.diff_raw_file_size_ratio)).sum
        diff_mse := init.diff_mse + (diffs.map (fun r => r.diff_mse)).sum
        diff_psnr := init.diff_psnr + (diffs.map (fun r => r.diff_psnr)).sum
        diff_ssim := init.diff_ssim + (diffs.map (fun r => r.diff_ssim)).sum
        diff_ms_ssim := init.diff_ms_ssim + (diffs.map (fun r => r.diff_ms_ssim)).sum
        diff_butteraugli := init.diff_butteraugli + (diffs.map (fun r => r.diff_butteraugli)).sum
        diff_butteraugli_pnorm :=
          init.diff_butteraugli_pnorm + (diffs.map (fun r => r.diff_butteraugli_pnorm)).sum
        diff_ssimulacra2 :=
          init.diff_ssimulacra2 + (diffs.map (fun r => r.diff_ssimulacra2)).sum } := by
  induction diffs generalizing init with
  | nil => simp
  | cons a t ih =>
    rw [List.foldl_cons, ih]
    simp [summaryAdd, add_assoc]

theorem summarize_fields (diffs : List ComparisonResultDiff) :
    summarize diffs =
      { orig_image_name := "Summary"
        comp_image_name := "Summary"
        distance := 0
        effort := 0
        diff_orig_file_size :=
          (diffs.map (fun r => r.diff_orig_file_size)).sum / (diffs.length : ℚ)
        diff_comp_file_size :=
          (diffs.map (fun r => r.diff_comp_file_size)).sum / (diffs.length : ℚ)
        diff_orig_raw_size :=
          (diffs.map (fun r => r.diff_orig_raw_size)).sum / (diffs.length : ℚ)
        diff_comp_raw_size :=
          (diffs.map (fun r => r.diff_comp_raw_size)).sum / (diffs.length : ℚ)
        diff_comp_file_size_ratio :=
          (diffs.map (fun r => r.diff_comp_file_size_ratio)).sum / (diffs.length : ℚ)
        diff_raw_file_size_ratio :=
          (diffs.map (fun r => r.diff_raw_file_size_ratio)).sum / (diffs.length : ℚ)
        diff_mse := (diffs.map (fun r => r.diff_mse)).sum / (diffs.length : ℚ)
        diff_psnr := (diffs.map (fun r => r.diff_psnr)).sum / (diffs.length : ℚ)
        diff_ssim := (diffs.map (fun r => r.diff_ssim)).sum / (diffs.length : ℚ)
        diff_ms_ssim := (diffs.map (fun r => r.diff_ms_ssim)).sum / (diffs.length : ℚ)
        diff_butteraugli := (diffs.map (fun r => r.diff_butteraugli)).sum / (diffs.length : ℚ)
        diff_butteraugli_pnorm :=
          (diffs.map (fun r => r.diff_butteraugli_pnorm)).sum / (diffs.length : ℚ)
        diff_ssimulacra2 :=
          (diffs.map (fun r => r.diff_ssimulacra2)).sum / (diffs.length : ℚ) } := by
  rw [summarize, foldl_summaryAdd]
  simp [summaryDiv, summaryInit]

/-- Claim C2: whenever compare_results succeeds with a non-empty diff list,
the synthesized summary record carries the literal Summary marker in both
identity name fields (distance and effort are zeroed), and every numeric
field is the unweighted arithmetic mean of that field over the diff rows. -/
theorem compare_results_summary (results_1 results_2 : List ComparisonResult)
    (diffs : List ComparisonResultDiff) (s : ComparisonResultDiff)
    (h : compare_results results_1 results_2 = some (diffs, s)) (hne : diffs ≠ []) :
    s.orig_image_name = "Summary" ∧ s.comp_image_name = "Summary" ∧
    s.distance = 0 ∧ s.effort = 0 ∧
    s.diff_orig_file_size = (diffs.map (fun r => r.diff_orig_file_size)).sum / (diffs.length : ℚ) ∧
    s.diff_comp_file_size = (diffs.map (fun r => r.diff_comp_file_size)).sum / (diffs.length : ℚ) ∧
    s.diff_orig_raw_size = (diffs.map (fun r => r.diff_orig_raw_size)).sum / (diffs.length : ℚ) ∧
    s.diff_comp_raw_size = (diffs.map (fun r => r.diff_comp_raw_size)).sum / (diffs.length : ℚ) ∧
    s.diff_comp_file_size_ratio
      = (diffs.map (fun r => r.diff_comp_file_size_ratio)).sum / (diffs.length : ℚ) ∧
    s.diff_raw_file_size_ratio
      = (diffs.map (fun r => r.diff_raw_file_size_ratio)).sum / (diffs.length : ℚ) ∧
    s.diff_mse = (diffs.map (fun r => r.diff_mse)).sum / (diffs.length : ℚ) ∧
    s.diff_psnr = (diffs.map (fun r => r.diff_psnr)).sum / (diffs.length : ℚ) ∧
    s.diff_ssim = (diffs.map (fun r => r.diff_ssim)).sum / (diffs.length : ℚ) ∧
    s.diff_ms_ssim = (diffs.map (fun r => r.diff_ms_ssim)).sum / (diffs.length : ℚ) ∧
    s.diff_butteraugli = (diffs.map (fun r => r.diff_butteraugli)).sum / (diffs.length : ℚ) ∧
    s.diff_butteraugli_pnorm
      = (diffs.map (fun r => r.diff_butteraugli_pnorm)).sum / (diffs.length : ℚ) ∧
    s.diff_ssimulacra2 = (diffs.map (fun r => r.diff_ssimulacra2)).sum / (diffs.length : ℚ) := by
  have hs : s = summarize diffs := by
    simp only [compare_results] at h
    by_cases hlen : (sortByName results_1).length = (sortByName results_2).length
    · rw [if_pos hlen] at h
      cases hd : diffRows (sortByName results_1) (sortByName results_2) with
      | none => rw [hd] at h; exact Option.noConfusion h
      | some d =>
        rw [hd] at h
        have := Option.some.inj h
        have h1 : d = diffs := congrArg Prod.fst this
        have h2 : summarize d = s := congrArg Prod.snd this
        rw [← h2, h1]
    · rw [if_neg hlen] at h
      exact Option.noConfusion h
  subst hs
  rw [summarize_fields]
  exact ⟨rfl, rfl, rfl, rfl, rfl, rfl, rfl, rfl, rfl, rfl, rfl, rfl, rfl, rfl, rfl, rfl, rfl⟩

/-- Witness for C2: a one-row diff with psnr difference 2 yields a summary
marked Summary whose psnr field is 2. -/
theorem compare_results_summary_witness :
    ∃ diffs s, compare_results sampleLogA sampleLogB = some (diffs, s) ∧
      s.orig_image_name = "Summary" ∧ s.diff_psnr = 2 := by
  have h : compare_results sampleLogA sampleLogB =
      some ([mkDiff (mkSample "a" "a-1-5.jxl" 1 5 30) (mkSample "a" "a-1-5.jxl" 1 5 32)],
        summarize [mkDiff (mkSample "a" "a-1-5.jxl" 1 5 30) (mkSample "a" "a-1-5.jxl" 1 5 32)]) := by
    simp [compare_results, sampleLogA, sampleLogB, sortByName, diffRows, identMatch, mkSample]
  obtain ⟨hA, _, _, _, _, _, _, _, _, _, _, hpsnr, _⟩ :=
    compare_results_summary sampleLogA sampleLogB _ _ h (by simp)
  refine ⟨_, _, h, hA, ?_⟩
  rw [hpsnr]
  norm_num [mkDiff, mkSample]

/-! Claim C9: panic of from_file_name on a missing extension. -/

/-- Claim C9: ImageFormat::from_file_name panics (none) on any file name
lacking an extension instead of returning Unsupported, and run_benchmark's
pre-dispatch filter inherits that panic; with an extension present the
result is the extension table's value, so Unsupported arises only from a
present but unrecognized extension. -/
theorem from_file_name_spec :
    (∀ path : List Char, rustExtension path = none →
      from_file_name path = none ∧ run_benchmark_filter path = none) ∧
    (∀ (path ext : List Char), rustExtension path = some ext →
      from_file_name path = some (ext_to_format ext)) ∧
    (∀ path : List Char, from_file_name path = some ImageFormat.Unsupported →
      ∃ ext, rustExtension path = some ext ∧ ext_to_format ext = ImageFormat.Unsupported) := by
  refine ⟨?_, ?_, ?_⟩
  · intro path h
    refine ⟨?_, ?_⟩
    · rw [from_file_name, h]
      rfl
    · rw [run_benchmark_filter, from_file_name, h]
      rfl
  · intro path ext h
    rw [from_file_name, h]
    rfl
  · intro path h
    cases hext : rustExtension path with
    | none =>
      rw [from_file_name, hext] at h
      exact Option.noConfusion h
    | some ext =>
      rw [from_file_name, hext] at h
      exact ⟨ext, rfl, Option.some.inj h⟩

/-- Witness for C9: an extension-less file name makes both the format
reader and the dispatch filter panic. -/
theorem from_file_name_spec_witness :
    from_file_name ("Makefile".data) = none ∧ run_benchmark_filter ("Makefile".data) = none :=
  from_file_name_spec.1 ("Makefile".data) (by decide)

/-! Claim C10: read_jxl file-name parsing. -/

/-- Claim C10: for a .jxl path whose file name splits on dashes into fewer
than two parts, read_jxl panics (the out-of-range slice, modelled as none);
with at least two parts it succeeds, the origin name is always present, and
the distance or effort field is absent exactly when its file-name part
fails numeric parsing. -/
theorem read_jxl_spec (path : List Char) (hext : rustExtension path = some ("jxl".data)) :
    ((splitOnChar '-' (rustFileName path)).length < 2 → read_jxl path = none) ∧
    (∀ p : Provenance, read_jxl path = some p →
      2 ≤ (splitOnChar '-' (rustFileName path)).length ∧
      p.jxl_orig_image_name.isSome = true ∧
      (p.jxl_distance = none ↔
        parse_f32 ((splitOnChar '-' (rustFileName path)).getD
          ((splitOnChar '-' (rustFileName path)).length - 2) []) = none) ∧
      (p.jxl_effort = none ↔
        parse_u32 ((splitOnChar '.' ((splitOnChar '-' (rustFileName path)).getLastD [])).headD [])
          = none)) := by
  constructor
  · intro hlt
    simp [read_jxl, hext, hlt]
  · intro p hp
    simp only [read_jxl, hext, ne_eq, not_true_eq_false, if_false, ite_false] at hp
    by_cases hlen : (splitOnChar '-' (rustFileName path)).length < 2
    · rw [if_pos hlen] at hp
      exact Option.noConfusion hp
    · rw [if_neg hlen] at hp
      have hp' := Option.some.inj hp
      refine ⟨by omega, ?_, ?_, ?_⟩
      · rw [← hp']
        rfl
      · rw [← hp']
      · rw [← hp']

/-- Witness for C10: the name a.jxl has a single dash part and panics; the
name a-b.jxl has two parts and does not. -/
theorem read_jxl_spec_witness :
    read_jxl ("a.jxl".data) = none ∧
    2 ≤ (splitOnChar '-' (rustFileName ("a-b.jxl".data))).length := by
  refine ⟨(read_jxl_spec ("a.jxl".data) (by decide)).1 (by decide), ?_⟩
  exact ((read_jxl_spec ("a-b.jxl".data) (by decide)).2
    { jxl_orig_image_name := some [], jxl_distance := none, jxl_effort := none } (by decide)).1

/-! Claim C8: provenance fields of source images and encoder artifacts. -/

theorem not_mem_append_cons {c x : Char} {A B : List Char}
    (hA : c ∉ A) (hx : c ≠ x) (hB : c ∉ B) : c ∉ A ++ x :: B := by
  intro h
  rcases List.mem_append.mp h with h | h
  · exact hA h
  · rcases List.mem_cons.mp h with h | h
    · exact hx h
    · exact hB h

theorem getD_append_pair (A : List (List Char)) (x y d : List Char) :
    (A ++ [x, y]).getD A.length d = x := by
  rw [List.getD, List.get?_eq_getElem?, List.getElem?_append_right (Nat.le_refl _)]
  simp

theorem getLastD_append_pair (A : List (List Char)) (x y d : List Char) :
    (A ++ [x, y]).getLastD d = y := by
  rw [show A ++ [x, y] = (A ++ [x]) ++ [y] by simp, List.getLastD_concat]

theorem showDistance_half : showDistance (1/2 : ℚ) = "0.5".data := by
  rw [showDistance, if_neg (by norm_num), show ((1 : ℚ)/2).num = 1 from by norm_num]
  decide

theorem showDistance_one : showDistance (1 : ℚ) = "1".data := by
  rw [showDistance, if_pos (by norm_num), show (1 : ℚ).num = 1 from by norm_num]
  decide

theorem showDistance_three_half : showDistance (3/2 : ℚ) = "1.5".data := by
  rw [showDistance, if_neg (by norm_num), show ((3 : ℚ)/2).num = 3 from by norm_num]
  decide

theorem showDistance_three : showDistance (3 : ℚ) = "3".data := by
  rw [showDistance, if_pos (by norm_num), show (3 : ℚ).num = 3 from by norm_num]
  decide

theorem showDistance_four : showDistance (4 : ℚ) = "4".data := by
  rw [showDistance, if_pos (by norm_num), show (4 : ℚ).num = 4 from by norm_num]
  decide

theorem showDistance_six : showDistance (6 : ℚ) = "6".data := by
  rw [showDistance, if_pos (by norm_num), show (6 : ℚ).num = 6 from by norm_num]
  decide

theorem showDistance_eight : showDistance (8 : ℚ) = "8".data := by
  rw [showDistance, if_pos (by norm_num), show (8 : ℚ).num = 8 from by norm_num]
  decide

theorem showDistance_ten : showDistance (10 : ℚ) = "10".data := by
  rw [showDistance, if_pos (by norm_num), show (10 : ℚ).num = 10 from by norm_num]
  decide

theorem showDistance_twelve : showDistance (12 : ℚ) = "12".data := by
  rw [showDistance, if_pos (by norm_num), show (12 : ℚ).num = 12 from by norm_num]
  decide

theorem showDistance_fourteen : showDistance (14 : ℚ) = "14".data := by
  rw [showDistance, if_pos (by norm_num), show (14 : ℚ).num = 14 from by norm_num]
  decide

theorem parse_f32_half : parse_f32 ("0.5".data) = some (1/2 : ℚ) := by
  have h : parse_f32 ("0.5".data) =
      some ((1 : ℚ) * ((digitsToNat ['0'] : ℚ) + (digitsToNat ['5'] : ℚ) / (10 : ℚ) ^ (1 : Nat))) :=
    rfl
  rw [h, show digitsToNat ['0'] = 0 from by decide, show digitsToNat ['5'] = 5 from by decide]
  exact congrArg some (by norm_num)

theorem parse_f32_three_half : parse_f32 ("1.5".data) = some (3/2 : ℚ) := by
  have h : parse_f32 ("1.5".data) =
      some ((1 : ℚ) * ((digitsToNat ['1'] : ℚ) + (digitsToNat ['5'] : ℚ) / (10 : ℚ) ^ (1 : Nat))) :=
    rfl
  rw [h, show digitsToNat ['1'] = 1 from by decide, show digitsToNat ['5'] = 5 from by decide]
  exact congrArg some (by norm_num)

theorem parse_f32_one : parse_f32 ("1".data) = some (1 : ℚ) := by
  have h : parse_f32 ("1".data) = some ((1 : ℚ) * (digitsToNat ['1'] : ℚ)) := rfl
  rw [h, show digitsToNat ['1'] = 1 from by decide]
  exact congrArg some (by norm_num)

theorem parse_f32_three : parse_f32 ("3".data) = some (3 : ℚ) := by
  have h : parse_f32 ("3".data) = some ((1 : ℚ) * (digitsToNat ['3'] : ℚ)) := rfl
  rw [h, show digitsToNat ['3'] = 3 from by decide]
  exact congrArg some (by norm_num)

theorem parse_f32_four : parse_f32 ("4".data) = some (4 : ℚ) := by
  have h : parse_f32 ("4".data) = some ((1 : ℚ) * (digitsToNat ['4'] : ℚ)) := rfl
  rw [h, show digitsToNat ['4'] = 4 from by decide]
  exact congrArg some (by norm_num)

theorem parse_f32_six : parse_f32 ("6".data) = some (6 : ℚ) := by
  have h : parse_f32 ("6".data) = some ((1 : ℚ) * (digitsToNat ['6'] : ℚ)) := rfl
  rw [h, show digitsToNat ['6'] = 6 from by decide]
  exact congrArg some (by norm_num)

theorem parse_f32_eight : parse_f32 ("8".data) = some (8 : ℚ) := by
  have h : parse_f32 ("8".data) = some ((1 : ℚ) * (digitsToNat ['8'] : ℚ)) := rfl
  rw [h, show digitsToNat ['8'] = 8 from by decide]
  exact congrArg some (by norm_num)

theorem parse_f32_ten : parse_f32 ("10".data) = some (10 : ℚ) := by
  have h : parse_f32 ("10".data) = some ((1 : ℚ) * (digitsToNat ['1', '0'] : ℚ)) := rfl
  rw [h, show digitsToNat ['1', '0'] = 10 from by decide]
  exact congrArg some (by norm_num)

theorem parse_f32_twelve : parse_f32 ("12".data) = some (12 : ℚ) := by
  have h : parse_f32 ("12".data) = some ((1 : ℚ) * (digitsToNat ['1', '2'] : ℚ)) := rfl
  rw [h, show digitsToNat ['1', '2'] = 12 from by decide]
  exact congrArg some (by norm_num)

theorem parse_f32_fourteen : parse_f32 ("14".data) = some (14 : ℚ) := by
  have h : parse_f32 ("14".data) = some ((1 : ℚ) * (digitsToNat ['1', '4'] : ℚ)) := rfl
  rw [h, show digitsToNat ['1', '4'] = 14 from by decide]
  exact congrArg some (by norm_num)

theorem distance_props (d : ℚ) (hd : d ∈ distances) :
    parse_f32 (showDistance d) = some d ∧ ('-' : Char) ∉ showDistance d ∧
    ('/' : Char) ∉ showDistance d := by
  fin_cases hd
  · rw [showDistance_half]
    exact ⟨parse_f32_half, by decide, by decide⟩
  · rw [showDistance_one]
    exact ⟨parse_f32_one, by decide, by decide⟩
  · rw [showDistance_three_half]
    exact ⟨parse_f32_three_half, by decide, by decide⟩
  · rw [showDistance_three]
    exact ⟨parse_f32_three, by decide, by decide⟩
  · rw [showDistance_four]
    exact ⟨parse_f32_four, by decide, by decide⟩
  · rw [showDistance_six]
    exact ⟨parse_f32_six, by decide, by decide⟩
  · rw [showDistance_eight]
    exact ⟨parse_f32_eight, by decide, by decide⟩
  · rw [showDistance_ten]
    exact ⟨parse_f32_ten, by decide, by decide⟩
  · rw [showDistance_twelve]
    exact ⟨parse_f32_twelve, by decide, by decide⟩
  · rw [showDistance_fourteen]
    exact ⟨parse_f32_fourteen, by decide, by decide⟩

theorem effort_props (e : Nat) (he : e ∈ efforts) :
    parse_u32 ((toString e).data) = some e ∧ ('-' : Char) ∉ (toString e).data ∧
    ('/' : Char) ∉ (toString e).data ∧ ('.' : Char) ∉ (toString e).data := by
  fin_cases he <;> exact ⟨by decide, by decide, by decide, by decide⟩

theorem mkCompImageName_decomp (name : List Char) (d : ℚ) (e : Nat) :
    mkCompImageName name d e =
      name ++ '-' :: (showDistance d ++ '-' :: ((toString e).data ++ '.' :: "jxl".data)) := by
  rw [mkCompImageName, show ("-" : String).data = ['-'] from rfl,
    show ("." : String).data = ['.'] from rfl]
  simp [List.append_assoc]

theorem mkCompImageName_dot_decomp (name : List Char) (d : ℚ) (e : Nat) :
    mkCompImageName name d e =
      (name ++ '-' :: (showDistance d ++ '-' :: (toString e).data)) ++ '.' :: "jxl".data := by
  rw [mkCompImageName_decomp]
  simp [List.append_assoc]

theorem rustFileName_eq (path : List Char) (h : ('/' : Char) ∉ path) :
    rustFileName path = path := by
  rw [rustFileName, splitOnChar_of_not_mem _ _ h]
  rfl

theorem rustExtension_cons (c : Char) (rest : List Char) (hslash : ('/' : Char) ∉ c :: rest) :
    rustExtension (c :: rest) =
      if rest.contains '.' then some ((splitOnChar '.' (c :: rest)).getLastD []) else none := by
  rw [rustExtension, rustFileName_eq _ hslash]

theorem dot_mem_tail (name mid : List Char) (c : Char) (rest : List Char)
    (hmid : ('.' : Char) ∈ mid) (heq : name ++ '-' :: mid = c :: rest) :
    ('.' : Char) ∈ rest := by
  cases name with
  | nil =>
    simp only [List.nil_append] at heq
    injection heq with h1 h2
    rw [← h2]
    exact hmid
  | cons n nt =>
    rw [List.cons_append] at heq
    injection heq with h1 h2
    rw [← h2]
    exact List.mem_append.mpr (Or.inr (List.mem_cons_of_mem _ hmid))

theorem mkComp_no_slash (name : List Char) (d : ℚ) (e : Nat)
    (hd : d ∈ distances) (he : e ∈ efforts) (hslash : ('/' : Char) ∉ name) :
    ('/' : Char) ∉ mkCompImageName name d e := by
  obtain ⟨-, hdm, hds⟩ := distance_props d hd
  obtain ⟨-, hem, hes, hedot⟩ := effort_props e he
  rw [mkCompImageName_decomp]
  exact not_mem_append_cons hslash (by decide)
    (not_mem_append_cons hds (by decide) (not_mem_append_cons hes (by decide) (by decide)))

theorem rustExtension_mkComp (name : List Char) (d : ℚ) (e : Nat)
    (hd : d ∈ distances) (he : e ∈ efforts) (hslash : ('/' : Char) ∉ name) :
    rustExtension (mkCompImageName name d e) = some ("jxl".data) := by
  have hnoslash := mkComp_no_slash name d e hd he hslash
  rcases hcr : mkCompImageName name d e with _ | ⟨c, rest⟩
  · exfalso
    rw [mkCompImageName_decomp] at hcr
    cases name <;> simp at hcr
  · have hslash' : ('/' : Char) ∉ c :: rest := hcr ▸ hnoslash
    have hdot : ('.' : Char) ∈ rest := by
      refine dot_mem_tail name
        (showDistance d ++ '-' :: ((toString e).data ++ '.' :: "jxl".data)) c rest ?_ ?_
      · exact List.mem_append_right _ (List.mem_cons_of_mem _
          (List.mem_append_right _ (List.mem_cons_self _ _)))
      · rw [← mkCompImageName_decomp]
        exact hcr
    rw [rustExtension_cons c rest hslash', if_pos (by simpa [List.elem_iff] using hdot),
      ← hcr, mkCompImageName_dot_decomp, splitOnChar_append,
      splitOnChar_of_not_mem _ _ (by decide : ('.' : Char) ∉ "jxl".data), List.getLastD_concat]

theorem read_jxl_mkComp (name : List Char) (d : ℚ) (e : Nat)
    (hd : d ∈ distances) (he : e ∈ efforts) (hslash : ('/' : Char) ∉ name) :
    read_jxl (mkCompImageName name d e) =
      some { jxl_orig_image_name := some name, jxl_distance := some d, jxl_effort := some e } := by
  obtain ⟨hdp, hdm, hds⟩ := distance_props d hd
  obtain ⟨hep, hem, hes, hedot⟩ := effort_props e he
  have hext := rustExtension_mkComp name d e hd he hslash
  have hfn : rustFileName (mkCompImageName name d e) = mkCompImageName name d e :=
    rustFileName_eq _ (mkComp_no_slash name d e hd he hslash)
  have hrest2 : ('-' : Char) ∉ (toString e).data ++ '.' :: "jxl".data :=
    not_mem_append_cons hem (by decide) (by decide)
  have hsplit : splitOnChar '-' (rustFileName (mkCompImageName name d e)) =
      splitOnChar '-' name ++ [showDistance d, (toString e).data ++ '.' :: "jxl".data] := by
    rw [hfn, mkCompImageName_decomp, splitOnChar_append, splitOnChar_append,
      splitOnChar_of_not_mem _ _ hdm, splitOnChar_of_not_mem _ _ hrest2]
    simp
  have hlen2 : (splitOnChar '-' (rustFileName (mkCompImageName name d e))).length =
      (splitOnChar '-' name).length + 2 := by
    rw [hsplit]
    simp
  simp only [read_jxl, hext, ne_eq, not_true_eq_false, if_false, ite_false]
  rw [if_neg (by omega), hsplit]
  have hL : ((splitOnChar '-' name) ++
      [showDistance d, (toString e).data ++ '.' :: "jxl".data]).length - 2
        = (splitOnChar '-' name).length := by
    simp
  rw [hL, List.take_left, joinSep_splitOnChar, getD_append_pair, getLastD_append_pair,
    splitOnChar_append, splitOnChar_of_not_mem _ _ hedot,
    splitOnChar_of_not_mem _ _ (by decide : ('.' : Char) ∉ "jxl".data)]
  rw [show (([(toString e).data] ++ ["jxl".data] : List (List Char))).headD []
      = (toString e).data from rfl]
  rw [hdp, hep]

/-- Claim C8: a source (non-.jxl) image record has all provenance fields
absent, an encoder-produced name-distance-effort.jxl artifact has them
populated from its file name, and an absent optional field serializes as
the empty string rather than a sentinel number. -/
theorem image_reader_provenance :
    (∀ path : List Char,
      format_from_string ((rustExtension path).getD []) ≠ ImageFormat.Unsupported →
      (rustExtension path).getD [] ≠ "jxl".data →
      image_reader_new path =
        some { jxl_orig_image_name := none, jxl_distance := none, jxl_effort := none }) ∧
    (∀ (name : List Char) (d : ℚ) (e : Nat), d ∈ distances → e ∈ efforts →
      ('/' : Char) ∉ name →
      image_reader_new (mkCompImageName name d e) =
        some { jxl_orig_image_name := some name, jxl_distance := some d,
               jxl_effort := some e }) ∧
    jxl_string_serialize none = [] ∧ (∀ s : List Char, jxl_string_serialize (some s) = s) := by
  refine ⟨?_, ?_, rfl, fun s => rfl⟩
  · intro path hfmt hjxl
    simp only [image_reader_new]
    rw [if_neg hfmt, if_neg hjxl]
  · intro name d e hd he hslash
    have hext := rustExtension_mkComp name d e hd he hslash
    simp only [image_reader_new, hext, Option.getD_some, if_true]
    exact read_jxl_mkComp name d e hd he hslash

/-- Witness for C8: the artifact kodim06-0.5-5.jxl recovers origin kodim06,
distance 0.5 and effort 5, while the source image kodim06.png has all three
fields absent. -/
theorem image_reader_provenance_witness :
    image_reader_new ("kodim06-0.5-5.jxl".data) =
      some { jxl_orig_image_name := some ("kodim06".data), jxl_distance := some (1/2 : ℚ),
             jxl_effort := some 5 } ∧
    image_reader_new ("kodim06.png".data) =
      some { jxl_orig_image_name := none, jxl_distance := none, jxl_effort := none } := by
  constructor
  · have h := image_reader_provenance.2.1 ("kodim06".data) (1/2 : ℚ) 5
      (by unfold distances; exact List.mem_cons_self _ _) (by decide) (by decide)
    rw [show mkCompImageName ("kodim06".data) (1/2 : ℚ) 5 = "kodim06-0.5-5.jxl".data from ?_] at h
    · exact h
    · rw [mkCompImageName, showDistance_half]
      decide
  · exact image_reader_provenance.1 ("kodim06.png".data) (by decide) (by decide)

/-! Claim C7: the sweep grid. -/

theorem mkCompImageName_eq_append (name : List Char) (d : ℚ) (e : Nat) :
    mkCompImageName name d e = name ++ distEffortSuffix d e := by
  rw [mkCompImageName, distEffortSuffix]
  simp [List.append_assoc]

theorem sweep_pairs_eq (file_path name : List Char) :
    (sweepInvocations file_path name).map (fun inv => (inv.distance, inv.effort)) =
      distances.flatMap fun d => efforts.map fun e => (d, e) := by
  simp [sweepInvocations, List.map_flatMap, List.map_map, Function.comp_def]

theorem sweep_pairs_nodup :
    (distances.flatMap fun d => efforts.map fun e => (d, e)).Nodup := by
  have h1 : distances.Nodup := by
    norm_num [distances, List.nodup_cons, List.mem_cons]
  have h2 : efforts.Nodup := by decide
  have hp := List.Nodup.product h1 h2
  simpa [List.product] using hp

theorem sweep_suffixes_nodup :
    (distances.flatMap fun d => efforts.map fun e => distEffortSuffix d e).Nodup := by
  have h5 : (toString (5 : Nat)).data = ['5'] := by decide
  have h6 : (toString (6 : Nat)).data = ['6'] := by decide
  have h7 : (toString (7 : Nat)).data = ['7'] := by decide
  have h8 : (toString (8 : Nat)).data = ['8'] := by decide
  have h9 : (toString (9 : Nat)).data = ['9'] := by decide
  simp only [distances, efforts, List.flatMap_cons, List.flatMap_nil, List.map_cons,
    List.map_nil, List.append_nil, distEffortSuffix, showDistance_half, showDistance_one,
    showDistance_three_half, showDistance_three, showDistance_four, showDistance_six,
    showDistance_eight, showDistance_ten, showDistance_twelve, showDistance_fourteen,
    h5, h6, h7, h8, h9]
  decide

theorem count_nodup_mem {α : Type} [BEq α] [LawfulBEq α] {l : List α} {a : α}
    (hn : l.Nodup) (ha : a ∈ l) : l.count a = 1 := by
  induction l with
  | nil => cases ha
  | cons b t ih =>
    obtain ⟨hb, ht⟩ := List.nodup_cons.mp hn
    rw [List.count_cons]
    rcases List.mem_cons.mp ha with h | h
    · subst h
      rw [List.count_eq_zero.mpr hb, if_pos (by simp)]
    · have hne : a ≠ b := fun he => hb (he ▸ h)
      rw [if_neg (by simpa using hne.symm), ih ht h]

/-- Claim C7: per dispatched image the sweep produces exactly one encoder
invocation per (distance, effort) pair of the fixed grids, iterating with
distance as the ascending outer axis and effort as the ascending inner
axis, each invocation passing the input, the output name, a
distance flag and an effort flag, and every output name
name-distance-effort.jxl is unique. -/
theorem sweep_grid_spec (file_path name : List Char) :
    ((sweepInvocations file_path name).map (fun inv => (inv.distance, inv.effort)) =
      distances.flatMap fun d => efforts.map fun e => (d, e)) ∧
    (∀ (d : ℚ) (e : Nat), d ∈ distances → e ∈ efforts →
      ((sweepInvocations file_path name).map (fun inv => (inv.distance, inv.effort))).count
        (d, e) = 1) ∧
    List.Sorted (· < ·) distances ∧ List.Sorted (· < ·) efforts ∧
    (∀ inv ∈ sweepInvocations file_path name,
      inv.comp_image_name = mkCompImageName name inv.distance inv.effort ∧
      inv.args = [file_path, inv.comp_image_name,
        "--distance=".data ++ showDistance inv.distance,
        "--effort=".data ++ (toString inv.effort).data]) ∧
    ((sweepInvocations file_path name).map (fun inv => inv.comp_image_name)).Nodup := by
  refine ⟨sweep_pairs_eq file_path name, ?_, ?_, ?_, ?_, ?_⟩
  · intro d e hd he
    rw [sweep_pairs_eq]
    exact count_nodup_mem sweep_pairs_nodup
      (List.mem_flatMap.mpr ⟨d, hd, List.mem_map.mpr ⟨e, he, rfl⟩⟩)
  · simp only [distances, List.sorted_cons, List.mem_cons]
    norm_num
  · decide
  · intro inv hinv
    simp only [sweepInvocations, List.mem_flatMap, List.mem_map] at hinv
    obtain ⟨d, hd, e, he, rfl⟩ := hinv
    exact ⟨rfl, rfl⟩
  · have hnames : (sweepInvocations file_path name).map (fun inv => inv.comp_image_name) =
        (distances.flatMap fun d => efforts.map fun e => distEffortSuffix d e).map
          (fun suf => name ++ suf) := by
      simp [sweepInvocations, List.map_flatMap, List.map_map, Function.comp_def,
        mkCompImageName_eq_append]
    rw [hnames]
    exact List.Nodup.map (fun a b h => List.append_cancel_left h) sweep_suffixes_nodup

/-- Witness for C7: the grid point distance 0.5, effort 5 is encoded
exactly once for a concrete image. -/
theorem sweep_grid_spec_witness :
    ((sweepInvocations ("in.png".data) ("img".data)).map
      (fun inv => (inv.distance, inv.effort))).count ((1/2 : ℚ), 5) = 1 :=
  (sweep_grid_spec ("in.png".data) ("img".data)).2.1 (1/2 : ℚ) 5
    (by unfold distances; exact List.mem_cons_self _ _) (by decide)

end JXLBench
